import Mathlib

/-!
Verification development for the newforms validation engine (`src/forms.js`).

The JavaScript source is shallowly embedded: JS values become an inductive
`JSValue` (with an explicit `undef` constructor, since the pipeline's
`typeof x != 'undefined'` checks are semantically significant), JS objects
used as ordered string-keyed maps become association lists with JS-object
update semantics (overwrite-in-place, append-if-new), thrown exceptions
become `Except JSError`, and the mutable `BaseForm` instance state becomes an
explicit `Form` record threaded through the pipeline functions.

The field `cleanLog` of `Form` and the fields `calls` / `hookCalls` of
`CleanState` are ghost instrumentation: they record which field `clean`
methods and which custom clean hooks were invoked, and change nothing else.
-/

set_option autoImplicit false

namespace Newforms

/-- A JavaScript value, as far as the validation pipeline observes it. -/
inductive JSValue where
  | undef
  | null
  | bool (b : Bool)
  | num (n : Int)
  | str (s : String)
  deriving Repr, DecidableEq

/-- Exceptions crossing the pipeline: `ValidationError` (modelled from the
spec: a `ValidationError` carries one or more human-readable messages, hence
a first message plus a possibly-empty rest) versus any other thrown value. -/
inductive JSError where
  | validation (first : String) (rest : List String)
  | other (tag : String)
  deriving Repr, DecidableEq

/-- The message list carried by a `ValidationError`; never empty. -/
def JSError.messages : JSError → List String
  | .validation m ms => m :: ms
  | .other _ => []

/-- Lookup of an own property in a JS object modelled as an association
list with unique keys (first match). -/
def objGet {α : Type} (m : List (String × α)) (k : String) : Option α :=
  match m with
  | [] => none
  | (k2, v) :: rest => if k2 = k then some v else objGet rest k

/-- `obj[k]` as an expression: `undefined` when the key is absent. -/
def objGetV (m : List (String × JSValue)) (k : String) : JSValue :=
  (objGet m k).getD JSValue.undef

/-- `obj.hasOwnProperty(k)`. -/
def objHasOwn {α : Type} (m : List (String × α)) (k : String) : Bool :=
  match m with
  | [] => false
  | (k2, _) :: rest => if k2 = k then true else objHasOwn rest k

/-- `obj[k] = v`: overwrite in place when the key exists (keeping its
position), append otherwise — JS object insertion-order semantics. -/
def objSet {α : Type} (m : List (String × α)) (k : String) (v : α) :
    List (String × α) :=
  match m with
  | [] => [(k, v)]
  | (k2, v2) :: rest =>
    if k2 = k then (k, v) :: rest else (k2, v2) :: objSet rest k v

/-- `delete obj[k]`. -/
def objDelete {α : Type} (m : List (String × α)) (k : String) :
    List (String × α) :=
  match m with
  | [] => []
  | (k2, v2) :: rest =>
    if k2 = k then objDelete rest k else (k2, v2) :: objDelete rest k

/-- Modelled from the spec: the `getDefault(obj, key, default)` utility of
this repository (not under `src/`) returns the value stored under `key` when
the object has that own property, and `default` otherwise. -/
def getDefault (m : List (String × JSValue)) (k : String) (d : JSValue) :
    JSValue :=
  match objGet m k with
  | some v => v
  | none => d

/-- Property under which non-field-specific errors are stored
(`src/forms.js` line 2). -/
def NON_FIELD_ERRORS : String := "__all__"

/-- The Error Report: modelled from the spec: the repository's `ErrorObject`
(not under `src/`) is an ordered mapping from key to error-message list with
`set` / `get` / `isPopulated` operations; `set` stores under a key
(overwriting in place), `isPopulated` is true iff at least one key is
present. Here it is the association list itself, with `objSet` / `objGet`
as `set` / `get`. -/
def ErrorReport : Type := List (String × List String)

/-- `ErrorObject.isPopulated()`: the report has at least one key. -/
def isPopulated (e : ErrorReport) : Bool :=
  !(List.isEmpty e)

/-- The widget interface the pipeline needs: an external collaborator
supplying `valueFromData` plus transport/visibility metadata. -/
structure Widget where
  valueFromData : List (String × JSValue) → List (String × JSValue) →
    String → JSValue
  isHidden : Bool := false
  needsMultipartForm : Bool := false

/-- The Field Capability contract (external, per the spec's §3): `clean`
takes the extracted raw value and — only consumed by file-like fields — an
initial value, and either returns a cleaned value or throws.  `hasChanged`
models the source's `_hasChanged`, `isFileField` models the source's
`field instanceof FileField` test. -/
structure Field where
  initial : JSValue := JSValue.undef
  showHiddenInitial : Bool := false
  isFileField : Bool := false
  creationCounter : Nat := 0
  widget : Widget
  hiddenWidget : Widget
  clean : JSValue → JSValue → Except JSError JSValue
  hasChanged : JSValue → JSValue → Bool

/-- A custom per-field clean hook (`clean_<name>` / `clean<Name>` instance
method): invoked with no arguments in JS, it reads the accumulated
`cleanedData` and returns the replacement value for its field (or throws). -/
def FieldHook : Type :=
  List (String × JSValue) → Except JSError JSValue

/-- The form-wide `clean()` hook: reads the accumulated `cleanedData` and
returns the full replacement set (or throws). -/
def FormCleanHook : Type :=
  List (String × JSValue) → Except JSError (List (String × JSValue))

/-- A `BaseForm` instance (`src/forms.js` lines 252-275).  `errorsCache`
models `this._errors`, `changedDataCache` models `this._changedData`,
`cleanedData = none` models the property being absent, `namePrefix` models
`this.prefix`, `methodHooks` models the instance's custom `clean_<name>` /
`clean<Name>` methods probed by name, and `cleanHook = none` models the
default `BaseForm.prototype.clean` (which returns `this.cleanedData`).
`cleanLog` is ghost instrumentation naming every field whose `clean` ran. -/
structure Form where
  isBound : Bool
  data : List (String × JSValue)
  files : List (String × JSValue)
  namePrefix : Option String
  initial : List (String × JSValue)
  emptyPermitted : Bool
  fields : List (String × Field)
  methodHooks : List (String × FieldHook)
  cleanHook : Option FormCleanHook
  errorsCache : Option ErrorReport
  changedDataCache : Option (List String)
  cleanedData : Option (List (String × JSValue))
  cleanLog : List String

/-- `BaseForm.prototype.addPrefix` (`src/forms.js` lines 421-427). -/
def addPrefix (f : Form) (name : String) : String :=
  match f.namePrefix with
  | some p => p ++ "-" ++ name
  | none => name

/-- `BaseForm.prototype.addInitialPrefix` (`src/forms.js` lines 432-435). -/
def addInitialPrefix (f : Form) (name : String) : String :=
  "initial-" ++ addPrefix f name

/-- The prototype-level surface shared by all instances of one composed
schema: `baseFields` plus the behaviour relevant to the pipeline. -/
structure FormProto where
  baseFields : List (String × Field)
  methodHooks : List (String × FieldHook) := []
  cleanHook : Option FormCleanHook := none

/-- The keyword arguments accepted by the `BaseForm` constructor
(`src/forms.js` lines 252-257), restricted to the pipeline-relevant ones. -/
structure Kwargs where
  data : Option (List (String × JSValue)) := none
  files : Option (List (String × JSValue)) := none
  namePrefix : Option String := none
  initial : Option (List (String × JSValue)) := none
  emptyPermitted : Bool := false

/-- The `BaseForm` constructor (`src/forms.js` lines 252-275):
`isBound = data !== null || files !== null`, lazy caches start `null`,
`cleanedData` starts absent, and the instance's field map is a deep copy of
`baseFields` (identity here, under value semantics). -/
def mkBaseForm (proto : FormProto) (k : Kwargs) : Form :=
  { isBound := k.data.isSome || k.files.isSome
    data := k.data.getD []
    files := k.files.getD []
    namePrefix := k.namePrefix
    initial := k.initial.getD []
    emptyPermitted := k.emptyPermitted
    fields := proto.baseFields
    methodHooks := proto.methodHooks
    cleanHook := proto.cleanHook
    errorsCache := none
    changedDataCache := none
    cleanedData := none
    cleanLog := [] }

/-- The camel-cased custom hook name probed by `_cleanFields`
(`src/forms.js` lines 778-779):
`'clean' + name.charAt(0).toUpperCase() + name.substr(1)`. -/
def camelName (name : String) : String :=
  match name.data with
  | [] => "clean"
  | c :: rest => "clean" ++ String.mk (Char.toUpper c :: rest)

/-- The mutable state `_cleanFields` threads: `this.cleanedData`,
`this._errors`, plus ghost logs of field-`clean` calls (`calls`) and custom
hook calls (`hookCalls`). -/
structure CleanState where
  cleanedData : List (String × JSValue)
  errors : ErrorReport
  calls : List String
  hookCalls : List String

/-- The `catch` block of `_cleanFields` (`src/forms.js` lines 785-793) for a
caught `ValidationError`: record the messages under the field's name and
delete any `cleanedData` entry for it whose value is not `undefined`. -/
def recordFieldError (st : CleanState) (name : String) (msgs : List String) :
    CleanState :=
  { st with
    errors := objSet st.errors name msgs
    cleanedData :=
      if objGetV st.cleanedData name ≠ JSValue.undef then
        objDelete st.cleanedData name
      else st.cleanedData }

/-- The custom-hook probe of `_cleanFields` (`src/forms.js` lines 769-783):
if `this[hookName]` is a function, invoke it on the accumulated
`cleanedData` and store its return value under `name`; a `ValidationError`
it throws is handled by the surrounding `catch`.  Returns `none` when
the instance has no such method. -/
def applyHook (f : Form) (st : CleanState) (name : String)
    (cd : List (String × JSValue)) (hookName : String) :
    Option (Except JSError CleanState) :=
  match objGet f.methodHooks hookName with
  | none => none
  | some hook =>
    some (match hook cd with
      | .ok r =>
        .ok { st with
          cleanedData := objSet cd name r
          hookCalls := st.hookCalls ++ [hookName] }
      | .error (.validation m ms) =>
        .ok (recordFieldError
          { st with cleanedData := cd, hookCalls := st.hookCalls ++ [hookName] }
          name (m :: ms))
      | .error (.other t) => .error (.other t))

/-- One iteration of the `_cleanFields` loop (`src/forms.js` lines 747-794):
extract the raw value through the widget, call the field's `clean` (passing
the initial value for file-like fields), store the cleaned value, then probe
for a `clean_<name>` hook and — only when that is absent — a `clean<Name>`
hook; a `ValidationError` from any of these is recorded under the field's
name, anything else propagates. -/
def cleanOneField (f : Form) (st0 : CleanState) (name : String)
    (field : Field) : Except JSError CleanState :=
  let value := field.widget.valueFromData f.data f.files (addPrefix f name)
  let st := { st0 with calls := st0.calls ++ [name] }
  match field.clean value
      (if field.isFileField then getDefault f.initial name field.initial
       else JSValue.undef) with
  | .error (.validation m ms) => .ok (recordFieldError st name (m :: ms))
  | .error (.other t) => .error (.other t)
  | .ok v =>
    let cd := objSet st.cleanedData name v
    match applyHook f st name cd ("clean_" ++ name) with
    | some res => res
    | none =>
      match applyHook f st name cd (camelName name) with
      | some res => res
      | none => .ok { st with cleanedData := cd }

/-- The `_cleanFields` loop over a list of fields. -/
def cleanFieldsList (f : Form) (st : CleanState) :
    List (String × Field) → Except JSError CleanState
  | [] => .ok st
  | p :: rest =>
    match cleanOneField f st p.1 p.2 with
    | .ok st2 => cleanFieldsList f st2 rest
    | .error e => .error e

/-- `BaseForm.prototype._cleanFields` (`src/forms.js` lines 746-795), run
from the state `fullClean` establishes: `cleanedData = {}` and a fresh
empty Error Report. -/
def cleanFields (f : Form) : Except JSError CleanState :=
  cleanFieldsList f
    { cleanedData := [], errors := [], calls := [], hookCalls := [] } f.fields

/-- `BaseForm.prototype._cleanForm` (`src/forms.js` lines 797-808):
`this.cleanedData = this.clean()`; a thrown `ValidationError` leaves
`cleanedData` untouched and records the messages under `NON_FIELD_ERRORS`;
anything else propagates.  `cleanHook = none` is the default `clean`, which
returns `this.cleanedData` unchanged. -/
def cleanForm (f : Form) (st : CleanState) : Except JSError CleanState :=
  match f.cleanHook with
  | none => .ok st
  | some h =>
    match h st.cleanedData with
    | .ok cd => .ok { st with cleanedData := cd }
    | .error (.validation m ms) =>
      .ok { st with errors := objSet st.errors NON_FIELD_ERRORS (m :: ms) }
    | .error (.other t) => .error (.other t)

/-- The body of the `changedData` getter's computation
(`src/forms.js` lines 296-327): for each field in declaration order, extract
the submitted value through the widget, take the initial value from the
per-instance `initial` map falling back to the field's own `initial` —
overridden, for `showHiddenInitial` fields, by reading the hidden widget's
value under the `initial-`-prefixed name — and collect the names where the
field's `_hasChanged` says true. -/
def computeChangedData (f : Form) : List String :=
  f.fields.foldl
    (fun acc p =>
      let name := p.1
      let field := p.2
      let dataValue := field.widget.valueFromData f.data f.files
        (addPrefix f name)
      let initialValue := getDefault f.initial name field.initial
      let initialValue :=
        if field.showHiddenInitial then
          field.hiddenWidget.valueFromData f.data f.files
            (addInitialPrefix f name)
        else initialValue
      if field.hasChanged initialValue dataValue then acc ++ [name] else acc)
    []

/-- The `changedData` getter (`src/forms.js` lines 294-329): memoized in
`this._changedData`; returns the list together with the updated instance. -/
def changedDataRun (f : Form) : List String × Form :=
  match f.changedDataCache with
  | some l => (l, f)
  | none =>
    let l := computeChangedData f
    (l, { f with changedDataCache := some l })

/-- The state after `this._errors = ErrorObject()`
(`src/forms.js` line 724). -/
def errorsInit (f : Form) : Form :=
  { f with errorsCache := some ([] : ErrorReport) }

/-- The state after `this._errors = ErrorObject()` and
`this.cleanedData = {}` (`src/forms.js` lines 724 and 729). -/
def boundInit (f : Form) : Form :=
  { errorsInit f with cleanedData := some ([] : List (String × JSValue)) }

/-- `BaseForm.prototype.fullClean` (`src/forms.js` lines 723-744): allocate
a fresh Error Report; stop if unbound; set `cleanedData = {}`; stop (keeping
the empty `cleanedData`) when `emptyPermitted` and nothing changed; run
`_cleanFields`, `_cleanForm` and the default no-op `_postClean`; finally
discard `cleanedData` if the report is populated.  Note that
`this.hasChanged()` is only evaluated — and hence `_changedData` only
memoized here — when `emptyPermitted` is true, because `&&`
short-circuits. -/
def fullClean (f : Form) : Except JSError Form :=
  if (errorsInit f).isBound then
    let f2 := boundInit f
    let f3 := if f2.emptyPermitted then (changedDataRun f2).2 else f2
    if f2.emptyPermitted && List.isEmpty (changedDataRun f2).1 then .ok f3
    else
      match cleanFields f3 with
      | .error e => .error e
      | .ok st1 =>
        match cleanForm f3 st1 with
        | .error e => .error e
        | .ok st2 =>
          .ok { f3 with
            errorsCache := some st2.errors
            cleanedData :=
              if isPopulated st2.errors then none else some st2.cleanedData
            cleanLog := f3.cleanLog ++ st2.calls }
  else .ok (errorsInit f)

/-- The `errors` getter (`src/forms.js` lines 284-292): runs `fullClean`
when `_errors` is still `null`, then returns the stored report (together
with the updated instance). -/
def errorsRun (f : Form) : Except JSError (ErrorReport × Form) :=
  match f.errorsCache with
  | some e => .ok (e, f)
  | none =>
    match fullClean f with
    | .ok g => .ok (g.errorsCache.getD [], g)
    | .error e => .error e

/-- `BaseForm.prototype.isValid` (`src/forms.js` lines 406-411): false when
unbound (without touching the error report); otherwise true iff the report —
computing it if necessary — is not populated. -/
def isValidRun (f : Form) : Except JSError (Bool × Form) :=
  if f.isBound then
    match errorsRun f with
    | .ok (e, g) => .ok (!(isPopulated e), g)
    | .error err => .error err
  else .ok (false, f)

/-- The pipeline-relevant slice of a `BoundField`
(`src/forms.js` lines 12-22); the rendering-only members (label, help text,
auto-id) belong to the presentation layer the spec excludes. -/
structure BoundField where
  field : Field
  name : String
  htmlName : String
  htmlInitialName : String

/-- The `BoundField` constructor applied to a form, a field and a name
(`src/forms.js` lines 12-22, pipeline-relevant members). -/
def mkBoundField (f : Form) (field : Field) (name : String) : BoundField :=
  { field := field
    name := name
    htmlName := addPrefix f name
    htmlInitialName := addInitialPrefix f name }

/-- `BaseForm.prototype.boundField` (`src/forms.js` lines 393-398): throw
when the instance's field map has no own field of that name, otherwise build
the `BoundField` view. -/
def boundField (f : Form) (name : String) : Except String BoundField :=
  match objGet f.fields name with
  | some fld => .ok (mkBoundField f fld name)
  | none =>
    .error ("Form does not have a \x27" ++ name ++ "\x27 field.")

/-- Insert one `[name, field]` pair into a list sorted by
`creationCounter`, modelling the comparator
`a[1].creationCounter - b[1].creationCounter`
(`src/forms.js` lines 954-956). -/
def insertByCounter (p : String × Field) :
    List (String × Field) → List (String × Field)
  | [] => [p]
  | q :: rest =>
    if p.2.creationCounter < q.2.creationCounter then p :: q :: rest
    else q :: insertByCounter p rest

/-- Sort inline field declarations by their creation counter
(`src/forms.js` lines 954-956); a stable insertion sort. -/
def sortFields (l : List (String × Field)) : List (String × Field) :=
  l.foldr insertByCounter []

/-- Modelled from the spec: the `objectItems` utility of this repository
(not under `src/`) lists an object's own `[key, value]` pairs in insertion
order — the identity on our association-list representation. -/
def objectItems (m : List (String × Field)) : List (String × Field) := m

/-- Modelled from the spec: the `itemsToObject` utility of this repository
(not under `src/`) builds an object from `[key, value]` pairs; assigning a
key that already exists anywhere in the accumulated object overwrites it in
place (keeping its original position) rather than appending it again. -/
def itemsToObject (pairs : List (String × Field)) : List (String × Field) :=
  pairs.foldl (fun acc p => objSet acc p.1 p.2) []

/-- The `baseFields` merge performed by the `Form` factory
(`src/forms.js` lines 946-966): inline fields sorted by creation counter,
parents' field lists prepended in reverse loop order — so the result lists
parent 0's fields, then parent 1's, ..., then the inline fields — and the
whole list collapsed into one object by `itemsToObject`. -/
def formBaseFields (bases : List (List (String × Field)))
    (kwargsFields : List (String × Field)) : List (String × Field) :=
  itemsToObject
    (bases.foldr (fun b acc => objectItems b ++ acc) (sortFields kwargsFields))

/-- The instance state reached when `fullClean` takes the `emptyPermitted`
short-circuit: a fresh empty Error Report, `cleanedData = {}`, and the
memoized changed-data list. -/
def shortCircuitState (f : Form) : Form :=
  (changedDataRun (boundInit f)).2

/-- The initial value used for change detection, as the spec's §4.3 words
it: the per-instance `initial` map overriding the field's own `initial` —
except that a field requesting the parallel hidden-initial channel reads its
initial out of the submitted data/files under the `initial-`-prefixed name
via its hidden widget. -/
def specChangedInitial (f : Form) (name : String) (field : Field) : JSValue :=
  if field.showHiddenInitial then
    field.hiddenWidget.valueFromData f.data f.files (addInitialPrefix f name)
  else getDefault f.initial name field.initial

/-- The submitted raw value used for change detection, as the spec words
it: the field's widget reading the instance's data/files under the
effective (prefixed) name. -/
def specSubmittedValue (f : Form) (name : String) (field : Field) : JSValue :=
  field.widget.valueFromData f.data f.files (addPrefix f name)

/-- Whether a pipeline outcome is an uncaught non-`ValidationError`. -/
def isOtherError (r : Except JSError CleanState) : Bool :=
  match r with
  | .error (.other _) => true
  | _ => false

/-! Concrete fields and forms used to exercise the definitions. -/

/-- A simple text-input widget: reads `data[name]`, yielding `null` when
absent. -/
def textWidget : Widget :=
  { valueFromData := fun data _ name => getDefault data name JSValue.null }

/-- A concrete required text field: cleaning fails with the canonical
required-field message on `null`, `undefined` or the empty string. -/
def textField (counter : Nat) : Field :=
  { creationCounter := counter
    widget := textWidget
    hiddenWidget := textWidget
    clean := fun v _ =>
      if v = JSValue.null ∨ v = JSValue.undef ∨ v = JSValue.str "" then
        .error (.validation "This field is required." [])
      else .ok v
    hasChanged := fun a b => decide (a ≠ b) }

/-- A concrete optional field: cleaning always succeeds with the raw
value. -/
def lenientField (counter : Nat) : Field :=
  { creationCounter := counter
    widget := textWidget
    hiddenWidget := textWidget
    clean := fun v _ => .ok v
    hasChanged := fun a b => decide (a ≠ b) }

/-- A demo form bound to `data = (x, "1")` with the single lenient field
`x`. -/
def demoForm : Form :=
  mkBaseForm { baseFields := [("x", lenientField 0)] }
    { data := some [("x", JSValue.str "1")] }

/-- The state `demoForm` reaches after its first `errors()` read. -/
def demoFormAfter : Form :=
  { demoForm with
    errorsCache := some []
    cleanedData := some [("x", JSValue.str "1")]
    cleanLog := ["x"] }

/-- The state `demoForm` reaches after its first `changedData()` read. -/
def demoFormChanged : Form :=
  { demoForm with changedDataCache := some ["x"] }

/-- A concrete field whose `clean` always throws a `ValidationError`. -/
def failField (counter : Nat) : Field :=
  { creationCounter := counter
    widget := textWidget
    hiddenWidget := textWidget
    clean := fun _ _ => .error (.validation "Invalid." [])
    hasChanged := fun a b => decide (a ≠ b) }

/-- A bound `emptyPermitted` form whose submitted data equals its initial
data (so nothing changed), over a field whose `clean` would fail. -/
def demoEmptyForm : Form :=
  mkBaseForm { baseFields := [("x", failField 0)] }
    { data := some [("x", JSValue.str "a")]
      initial := some [("x", JSValue.str "a")]
      emptyPermitted := true }

/-- A bound form with both a `clean_x` hook (returning `undefined`) and a
`cleanX` hook, over the lenient field `x`. -/
def hookForm : Form :=
  mkBaseForm
    { baseFields := [("x", lenientField 0)]
      methodHooks :=
        [("clean_x", fun _ => Except.ok JSValue.undef),
         ("cleanX", fun _ => Except.ok (JSValue.str "camel"))] }
    { data := some [("x", JSValue.str "1")] }

/-- A bound form whose form-wide `clean()` hook always throws a
`ValidationError`. -/
def formHookFail : Form :=
  mkBaseForm
    { baseFields := [("x", lenientField 0)]
      cleanHook :=
        some (fun _ => Except.error (.validation "Cross-field mismatch." [])) }
    { data := some [("x", JSValue.str "1")] }

/-- A bound form over a failing required field `bad` (its key is absent
from the data) and a succeeding lenient field `ok`. -/
def twoFieldForm : Form :=
  mkBaseForm { baseFields := [("bad", textField 0), ("ok", lenientField 1)] }
    { data := some [("ok", JSValue.str "v")] }


/-! Lemmas about the JS-object association-list operations. -/

theorem objGet_objSet_self {α : Type} (m : List (String × α)) (k : String)
    (v : α) : objGet (objSet m k v) k = some v := by
  induction m with
  | nil => simp [objGet, objSet]
  | cons p rest ih =>
    by_cases h : p.1 = k
    · simp [objGet, objSet, h]
    · simpa [objGet, objSet, h] using ih

theorem objGet_objSet_ne {α : Type} (m : List (String × α)) (k k2 : String)
    (v : α) (h : k2 ≠ k) : objGet (objSet m k v) k2 = objGet m k2 := by
  have hne : ¬(k = k2) := fun h2 => h h2.symm
  induction m with
  | nil => simp [objGet, objSet, hne]
  | cons p rest ih =>
    by_cases hp : p.1 = k
    · subst hp
      simp [objGet, objSet, hne]
    · by_cases hq : p.1 = k2 <;>
        simp [objGet, objSet, hp, hq, ih, h, hne]

theorem objHasOwn_iff_isSome {α : Type} (m : List (String × α)) (k : String) :
    objHasOwn m k = (objGet m k).isSome := by
  induction m with
  | nil => simp [objHasOwn, objGet]
  | cons p rest ih =>
    by_cases h : p.1 = k <;> simp [objHasOwn, objGet, h, ih]

theorem objHasOwn_objSet_ne {α : Type} (m : List (String × α))
    (k k2 : String) (v : α) (h : k2 ≠ k) :
    objHasOwn (objSet m k v) k2 = objHasOwn m k2 := by
  rw [objHasOwn_iff_isSome, objHasOwn_iff_isSome, objGet_objSet_ne m k k2 v h]

theorem objHasOwn_objDelete_self {α : Type} (m : List (String × α))
    (k : String) : objHasOwn (objDelete m k) k = false := by
  induction m with
  | nil => simp [objHasOwn, objDelete]
  | cons p rest ih =>
    by_cases h : p.1 = k <;> simp [objHasOwn, objDelete, h, ih]

theorem objHasOwn_objDelete_ne {α : Type} (m : List (String × α))
    (k k2 : String) (h : k2 ≠ k) :
    objHasOwn (objDelete m k) k2 = objHasOwn m k2 := by
  have hne : ¬(k = k2) := fun h2 => h h2.symm
  induction m with
  | nil => simp [objHasOwn, objDelete]
  | cons p rest ih =>
    by_cases hp : p.1 = k
    · subst hp
      simp [objHasOwn, objDelete, hne, ih]
    · by_cases hq : p.1 = k2 <;>
        simp [objHasOwn, objDelete, hp, hq, ih, h, hne]

theorem objSet_ne_nil {α : Type} (m : List (String × α)) (k : String)
    (v : α) : objSet m k v ≠ [] := by
  cases m with
  | nil => simp [objSet]
  | cons p rest =>
    by_cases h : p.1 = k <;> simp [objSet, h]

theorem map_fst_objSet_of_hasOwn {α : Type} (m : List (String × α))
    (k : String) (v : α) (h : objHasOwn m k = true) :
    (objSet m k v).map Prod.fst = m.map Prod.fst := by
  induction m with
  | nil => simp [objHasOwn] at h
  | cons p rest ih =>
    by_cases hp : p.1 = k
    · simp [objSet, hp]
    · simp [objHasOwn, hp] at h
      simp [objSet, hp, ih h]

theorem isPopulated_objSet (e : ErrorReport) (k : String)
    (v : List String) : isPopulated (objSet e k v) = true := by
  cases hq : objSet e k v with
  | nil => exact absurd hq (objSet_ne_nil e k v)
  | cons a l => simp [isPopulated]

theorem foldl_collect {α : Type} (g : α → Bool) (nameOf : α → String)
    (l : List α) (init : List String) :
    l.foldl (fun acc p => if g p then acc ++ [nameOf p] else acc) init =
      init ++ (l.filter g).map nameOf := by
  induction l generalizing init with
  | nil => simp
  | cons p rest ih =>
    by_cases h : g p <;> simp [h, ih]

/-! Congruence and framing lemmas for the pipeline. -/

theorem changedDataRun_snd_cleanedData (f : Form) :
    (changedDataRun f).2.cleanedData = f.cleanedData := by
  cases h : f.changedDataCache <;> simp [changedDataRun, h]

theorem changedDataRun_snd_errorsCache (f : Form) :
    (changedDataRun f).2.errorsCache = f.errorsCache := by
  cases h : f.changedDataCache <;> simp [changedDataRun, h]

theorem changedDataRun_snd_cleanLog (f : Form) :
    (changedDataRun f).2.cleanLog = f.cleanLog := by
  cases h : f.changedDataCache <;> simp [changedDataRun, h]

theorem addPrefix_congr (f g : Form) (h : g.namePrefix = f.namePrefix)
    (n : String) : addPrefix g n = addPrefix f n := by
  unfold addPrefix
  rw [h]

theorem computeChangedData_congr (f g : Form)
    (h1 : g.data = f.data) (h2 : g.files = f.files)
    (h3 : g.namePrefix = f.namePrefix) (h4 : g.initial = f.initial)
    (h5 : g.fields = f.fields) :
    computeChangedData g = computeChangedData f := by
  unfold computeChangedData addInitialPrefix
  simp only [addPrefix_congr f g h3, h1, h2, h4, h5]

theorem changedDataRun_fst_update (f : Form) (e : Option ErrorReport)
    (c : Option (List (String × JSValue))) :
    (changedDataRun { f with errorsCache := e, cleanedData := c }).1 =
      (changedDataRun f).1 := by
  unfold changedDataRun
  cases h : f.changedDataCache with
  | some l => simp [h]
  | none =>
    simp only [h]
    exact computeChangedData_congr f _ rfl rfl rfl rfl rfl

theorem changedDataRun_fst_boundInit (f : Form) :
    (changedDataRun (boundInit f)).1 = (changedDataRun f).1 :=
  changedDataRun_fst_update f (some ([] : ErrorReport))
    (some ([] : List (String × JSValue)))

theorem cleanOneField_update (f : Form) (e : Option ErrorReport)
    (c : Option (List (String × JSValue))) (st : CleanState) (n : String)
    (fld : Field) :
    cleanOneField { f with errorsCache := e, cleanedData := c } st n fld =
      cleanOneField f st n fld := rfl

theorem cleanFieldsList_update (f : Form) (e : Option ErrorReport)
    (c : Option (List (String × JSValue))) (st : CleanState)
    (l : List (String × Field)) :
    cleanFieldsList { f with errorsCache := e, cleanedData := c } st l =
      cleanFieldsList f st l := by
  induction l generalizing st with
  | nil => rfl
  | cons p rest ih =>
    rw [cleanFieldsList, cleanFieldsList, cleanOneField_update]
    cases cleanOneField f st p.1 p.2 <;> simp [ih]

theorem cleanFields_update (f : Form) (e : Option ErrorReport)
    (c : Option (List (String × JSValue))) :
    cleanFields { f with errorsCache := e, cleanedData := c } =
      cleanFields f := by
  rw [cleanFields, cleanFields]
  exact cleanFieldsList_update f e c _ f.fields

theorem cleanForm_update (f : Form) (e : Option ErrorReport)
    (c : Option (List (String × JSValue))) (st : CleanState) :
    cleanForm { f with errorsCache := e, cleanedData := c } st =
      cleanForm f st := rfl

theorem cleanFields_boundInit (f : Form) :
    cleanFields (boundInit f) = cleanFields f :=
  cleanFields_update f (some ([] : ErrorReport))
    (some ([] : List (String × JSValue)))

theorem boundInit_isBound (f : Form) :
    (boundInit f).isBound = f.isBound := rfl

theorem boundInit_data (f : Form) : (boundInit f).data = f.data := rfl

theorem boundInit_files (f : Form) : (boundInit f).files = f.files := rfl

theorem boundInit_namePrefix (f : Form) :
    (boundInit f).namePrefix = f.namePrefix := rfl

theorem boundInit_initial (f : Form) :
    (boundInit f).initial = f.initial := rfl

theorem boundInit_emptyPermitted (f : Form) :
    (boundInit f).emptyPermitted = f.emptyPermitted := rfl

theorem boundInit_fields (f : Form) : (boundInit f).fields = f.fields := rfl

theorem boundInit_methodHooks (f : Form) :
    (boundInit f).methodHooks = f.methodHooks := rfl

theorem boundInit_cleanHook (f : Form) :
    (boundInit f).cleanHook = f.cleanHook := rfl

theorem boundInit_changedDataCache (f : Form) :
    (boundInit f).changedDataCache = f.changedDataCache := rfl

theorem boundInit_cleanLog (f : Form) :
    (boundInit f).cleanLog = f.cleanLog := rfl

theorem cleanForm_boundInit (f : Form) (st : CleanState) :
    cleanForm (boundInit f) st = cleanForm f st := rfl

theorem fullClean_errorsCache (f g : Form) (h : fullClean f = .ok g) :
    g.errorsCache.isSome = true := by
  simp only [fullClean] at h
  split at h
  · split at h
    · cases h
      split
      · rw [changedDataRun_snd_errorsCache]
        rfl
      · rfl
    · split at h
      · exact absurd h (by simp)
      · split at h
        · exact absurd h (by simp)
        · cases h
          rfl
  · cases h
    rfl

/-! Structural lemmas about `_cleanFields` used for the error-isolation
claim. -/

theorem recordFieldError_calls (st : CleanState) (n : String)
    (msgs : List String) : (recordFieldError st n msgs).calls = st.calls :=
  rfl

theorem recordFieldError_frame (st : CleanState) (n : String)
    (msgs : List String) (k : String) (hk : k ≠ n) :
    objGet (recordFieldError st n msgs).errors k = objGet st.errors k ∧
    objHasOwn (recordFieldError st n msgs).cleanedData k =
      objHasOwn st.cleanedData k := by
  refine ⟨objGet_objSet_ne st.errors n k msgs hk, ?_⟩
  simp only [recordFieldError]
  split
  · exact objHasOwn_objDelete_ne st.cleanedData n k hk
  · rfl

theorem recordFieldError_self (st : CleanState) (n : String)
    (msgs : List String) :
    objGet (recordFieldError st n msgs).errors n = some msgs ∧
    (objHasOwn st.cleanedData n = false →
      objHasOwn (recordFieldError st n msgs).cleanedData n = false) := by
  refine ⟨objGet_objSet_self st.errors n msgs, ?_⟩
  intro h
  have hg : objGet st.cleanedData n = none := by
    rw [objHasOwn_iff_isSome] at h
    cases hg2 : objGet st.cleanedData n with
    | none => rfl
    | some v => rw [hg2] at h; simp at h
  simp only [recordFieldError, objGetV, hg, Option.getD_none]
  simp [h]

theorem applyHook_cases (f : Form) (st : CleanState) (n : String)
    (cd : List (String × JSValue)) (hookName : String) :
    applyHook f st n cd hookName = none ∨
    (∃ r, applyHook f st n cd hookName = some (.ok
      { st with cleanedData := objSet cd n r
                hookCalls := st.hookCalls ++ [hookName] })) ∨
    (∃ m ms, applyHook f st n cd hookName = some (.ok (recordFieldError
      { st with cleanedData := cd, hookCalls := st.hookCalls ++ [hookName] }
      n (m :: ms)))) ∨
    (∃ t, applyHook f st n cd hookName = some (.error (.other t))) := by
  cases hg : objGet f.methodHooks hookName with
  | none => exact Or.inl (by simp [applyHook, hg])
  | some hook =>
    cases hr : hook cd with
    | ok r => exact Or.inr (Or.inl ⟨r, by simp [applyHook, hg, hr]⟩)
    | error e =>
      cases e with
      | validation m ms =>
        exact Or.inr (Or.inr (Or.inl ⟨m, ms, by simp [applyHook, hg, hr]⟩))
      | other t =>
        exact Or.inr (Or.inr (Or.inr ⟨t, by simp [applyHook, hg, hr]⟩))

theorem cleanOneField_ok_frame (f : Form) (st : CleanState) (n : String)
    (fld : Field) (st2 : CleanState)
    (h : cleanOneField f st n fld = .ok st2) :
    st2.calls = st.calls ++ [n] ∧
    (∀ k, k ≠ n → objGet st2.errors k = objGet st.errors k) ∧
    (∀ k, k ≠ n → objHasOwn st2.cleanedData k = objHasOwn st.cleanedData k)
    := by
  simp only [cleanOneField] at h
  cases hcl : fld.clean
      (fld.widget.valueFromData f.data f.files (addPrefix f n))
      (if fld.isFileField then getDefault f.initial n fld.initial
       else JSValue.undef) with
  | error e =>
    cases e with
    | validation m ms =>
      simp only [hcl] at h
      injection h with h2
      subst h2
      exact ⟨recordFieldError_calls _ _ _,
        fun k hk => (recordFieldError_frame _ _ _ k hk).1,
        fun k hk => (recordFieldError_frame _ _ _ k hk).2⟩
    | other t =>
      simp only [hcl] at h
      cases h
  | ok v =>
    simp only [hcl] at h
    rcases applyHook_cases f { st with calls := st.calls ++ [n] } n
        (objSet st.cleanedData n v) ("clean_" ++ n) with
      hap | ⟨r, hap⟩ | ⟨m, ms, hap⟩ | ⟨t, hap⟩
    · simp only [hap] at h
      rcases applyHook_cases f { st with calls := st.calls ++ [n] } n
          (objSet st.cleanedData n v) (camelName n) with
        hap2 | ⟨r, hap2⟩ | ⟨m, ms, hap2⟩ | ⟨t, hap2⟩
      · simp only [hap2] at h
        injection h with h2
        subst h2
        exact ⟨rfl, fun k hk => rfl,
          fun k hk => objHasOwn_objSet_ne _ _ _ _ hk⟩
      · simp only [hap2] at h
        injection h with h2
        subst h2
        refine ⟨rfl, fun k hk => rfl, fun k hk => ?_⟩
        rw [objHasOwn_objSet_ne _ _ _ _ hk, objHasOwn_objSet_ne _ _ _ _ hk]
      · simp only [hap2] at h
        injection h with h2
        subst h2
        refine ⟨recordFieldError_calls _ _ _,
          fun k hk => (recordFieldError_frame _ _ _ k hk).1,
          fun k hk => ?_⟩
        rw [(recordFieldError_frame _ _ _ k hk).2]
        exact objHasOwn_objSet_ne _ _ _ _ hk
      · simp only [hap2] at h
        cases h
    · simp only [hap] at h
      injection h with h2
      subst h2
      refine ⟨rfl, fun k hk => rfl, fun k hk => ?_⟩
      rw [objHasOwn_objSet_ne _ _ _ _ hk, objHasOwn_objSet_ne _ _ _ _ hk]
    · simp only [hap] at h
      injection h with h2
      subst h2
      refine ⟨recordFieldError_calls _ _ _,
        fun k hk => (recordFieldError_frame _ _ _ k hk).1,
        fun k hk => ?_⟩
      rw [(recordFieldError_frame _ _ _ k hk).2]
      exact objHasOwn_objSet_ne _ _ _ _ hk
    · simp only [hap] at h
      cases h

theorem cleanOneField_error_other (f : Form) (st : CleanState) (n : String)
    (fld : Field) (e : JSError)
    (h : cleanOneField f st n fld = .error e) : ∃ t, e = .other t := by
  simp only [cleanOneField] at h
  cases hcl : fld.clean
      (fld.widget.valueFromData f.data f.files (addPrefix f n))
      (if fld.isFileField then getDefault f.initial n fld.initial
       else JSValue.undef) with
  | error e0 =>
    cases e0 with
    | validation m ms =>
      simp only [hcl] at h
      cases h
    | other t =>
      simp only [hcl] at h
      injection h with h2
      exact ⟨t, h2.symm⟩
  | ok v =>
    simp only [hcl] at h
    rcases applyHook_cases f { st with calls := st.calls ++ [n] } n
        (objSet st.cleanedData n v) ("clean_" ++ n) with
      hap | ⟨r, hap⟩ | ⟨m, ms, hap⟩ | ⟨t, hap⟩
    · simp only [hap] at h
      rcases applyHook_cases f { st with calls := st.calls ++ [n] } n
          (objSet st.cleanedData n v) (camelName n) with
        hap2 | ⟨r, hap2⟩ | ⟨m, ms, hap2⟩ | ⟨t, hap2⟩
      · simp only [hap2] at h
        cases h
      · simp only [hap2] at h
        cases h
      · simp only [hap2] at h
        cases h
      · simp only [hap2] at h
        injection h with h2
        exact ⟨t, h2.symm⟩
    · simp only [hap] at h
      cases h
    · simp only [hap] at h
      cases h
    · simp only [hap] at h
      injection h with h2
      exact ⟨t, h2.symm⟩

theorem cleanOneField_validation (f : Form) (st : CleanState) (n : String)
    (fld : Field) (m : String) (ms : List String)
    (hv : fld.clean (fld.widget.valueFromData f.data f.files (addPrefix f n))
        (if fld.isFileField then getDefault f.initial n fld.initial
         else JSValue.undef) = .error (.validation m ms)) :
    cleanOneField f st n fld =
      .ok (recordFieldError { st with calls := st.calls ++ [n] } n (m :: ms))
    := by
  simp only [cleanOneField, hv]

theorem cleanOneField_other (f : Form) (st : CleanState) (n : String)
    (fld : Field) (t : String)
    (ho : fld.clean (fld.widget.valueFromData f.data f.files (addPrefix f n))
        (if fld.isFileField then getDefault f.initial n fld.initial
         else JSValue.undef) = .error (.other t)) :
    cleanOneField f st n fld = .error (.other t) := by
  simp only [cleanOneField, ho]

theorem cleanFieldsList_calls (f : Form) (st : CleanState)
    (l : List (String × Field)) (st2 : CleanState)
    (h : cleanFieldsList f st l = .ok st2) :
    st2.calls = st.calls ++ l.map Prod.fst := by
  induction l generalizing st with
  | nil =>
    simp only [cleanFieldsList] at h
    injection h with h2
    subst h2
    simp
  | cons p rest ih =>
    rw [cleanFieldsList] at h
    cases ho : cleanOneField f st p.1 p.2 with
    | ok st1 =>
      rw [ho] at h
      have hc := (cleanOneField_ok_frame f st p.1 p.2 st1 ho).1
      have hr := ih st1 h
      rw [hr, hc]
      simp
    | error e => rw [ho] at h; cases h

theorem cleanFieldsList_frame (f : Form) (st : CleanState)
    (l : List (String × Field)) (st2 : CleanState)
    (h : cleanFieldsList f st l = .ok st2) (k : String)
    (hk : k ∉ l.map Prod.fst) :
    objGet st2.errors k = objGet st.errors k ∧
    objHasOwn st2.cleanedData k = objHasOwn st.cleanedData k := by
  induction l generalizing st with
  | nil =>
    simp only [cleanFieldsList] at h
    injection h with h2
    subst h2
    exact ⟨rfl, rfl⟩
  | cons p rest ih =>
    rw [List.map_cons, List.mem_cons, not_or] at hk
    rw [cleanFieldsList] at h
    cases ho : cleanOneField f st p.1 p.2 with
    | ok st1 =>
      rw [ho] at h
      have hfr := cleanOneField_ok_frame f st p.1 p.2 st1 ho
      have hr := ih st1 h hk.2
      exact ⟨hr.1.trans (hfr.2.1 k hk.1), hr.2.trans (hfr.2.2 k hk.1)⟩
    | error e => rw [ho] at h; cases h

theorem cleanFieldsList_error_other (f : Form) (st : CleanState)
    (l : List (String × Field)) (e : JSError)
    (h : cleanFieldsList f st l = .error e) : ∃ t, e = .other t := by
  induction l generalizing st with
  | nil => simp only [cleanFieldsList] at h; cases h
  | cons p rest ih =>
    rw [cleanFieldsList] at h
    cases ho : cleanOneField f st p.1 p.2 with
    | ok st1 =>
      rw [ho] at h
      exact ih st1 h
    | error e0 =>
      rw [ho] at h
      injection h with h2
      subst h2
      exact cleanOneField_error_other f st p.1 p.2 e0 ho

theorem cleanFieldsList_append (f : Form) (st : CleanState)
    (a b : List (String × Field)) :
    cleanFieldsList f st (a ++ b) =
      match cleanFieldsList f st a with
      | .ok st1 => cleanFieldsList f st1 b
      | .error e => .error e := by
  induction a generalizing st with
  | nil => simp [cleanFieldsList]
  | cons p rest ih =>
    rw [List.cons_append, cleanFieldsList, cleanFieldsList]
    cases ho : cleanOneField f st p.1 p.2 <;> simp [ih]

/-! The claims. -/

/-- Claim C10: for every schema instance and every string name,
`boundField(name)` throws an Error when the instance's field map has no own
field of that name, and otherwise returns a bound-field view for that field;
it never returns a view for an unknown name. -/
theorem boundField_checks_name (f : Form) (name : String) :
    (objHasOwn f.fields name = false →
      boundField f name =
        .error ("Form does not have a \x27" ++ name ++ "\x27 field.")) ∧
    (∀ bf, boundField f name = .ok bf →
      objGet f.fields name = some bf.field ∧ bf.name = name ∧
      bf.htmlName = addPrefix f name ∧
      bf.htmlInitialName = addInitialPrefix f name) := by
  constructor
  · intro h
    rw [objHasOwn_iff_isSome] at h
    cases hg : objGet f.fields name with
    | some fld => rw [hg] at h; simp at h
    | none => simp [boundField, hg]
  · intro bf h
    cases hg : objGet f.fields name with
    | some fld =>
      simp only [boundField, hg] at h
      cases h
      simp [mkBoundField, hg]
    | none => simp [boundField, hg] at h

/-- Witness for C10: `demoForm` has a field `x` but no field `y`. -/
theorem boundField_checks_name_witness :
    (boundField demoForm "y" =
      .error ("Form does not have a \x27y\x27 field.")) ∧
    (objGet demoForm.fields "x" =
        some (mkBoundField demoForm (lenientField 0) "x").field ∧
      (mkBoundField demoForm (lenientField 0) "x").name = "x" ∧
      (mkBoundField demoForm (lenientField 0) "x").htmlName =
        addPrefix demoForm "x" ∧
      (mkBoundField demoForm (lenientField 0) "x").htmlInitialName =
        addInitialPrefix demoForm "x") :=
  ⟨(boundField_checks_name demoForm "y").1 rfl,
   (boundField_checks_name demoForm "x").2
     (mkBoundField demoForm (lenientField 0) "x") rfl⟩

/-- Claim C2: for every unbound schema instance (constructed with neither
data nor files), `isValid()` returns false, no `cleanedData` property is
ever created, and the Error Report produced by `fullClean` has no keys
(`isPopulated()` is false), even after `errors()` has been read. -/
theorem unbound_form_invalid_unpopulated (proto : FormProto) (k : Kwargs)
    (hd : k.data = none) (hf : k.files = none) :
    isValidRun (mkBaseForm proto k) = .ok (false, mkBaseForm proto k) ∧
    (mkBaseForm proto k).cleanedData = none ∧
    errorsRun (mkBaseForm proto k) =
      .ok ([], { mkBaseForm proto k with
        errorsCache := some ([] : ErrorReport) }) ∧
    ({ mkBaseForm proto k with
        errorsCache := some ([] : ErrorReport) }).cleanedData = none ∧
    isPopulated [] = false ∧
    isValidRun { mkBaseForm proto k with
        errorsCache := some ([] : ErrorReport) } =
      .ok (false, { mkBaseForm proto k with
        errorsCache := some ([] : ErrorReport) }) := by
  have hb : (mkBaseForm proto k).isBound = false := by
    simp [mkBaseForm, hd, hf]
  refine ⟨?_, rfl, ?_, rfl, rfl, ?_⟩
  · simp [isValidRun, hb]
  · simp [errorsRun, mkBaseForm, fullClean, errorsInit, hd, hf]
  · simp [isValidRun, hb]

/-- Witness for C2: a concrete unbound instance. -/
theorem unbound_form_invalid_unpopulated_witness :
    isValidRun (mkBaseForm { baseFields := [("x", textField 0)] } {}) =
      .ok (false, mkBaseForm { baseFields := [("x", textField 0)] } {}) ∧
    (mkBaseForm { baseFields := [("x", textField 0)] } {}).cleanedData =
      none ∧
    errorsRun (mkBaseForm { baseFields := [("x", textField 0)] } {}) =
      .ok ([], { mkBaseForm { baseFields := [("x", textField 0)] } {} with
        errorsCache := some ([] : ErrorReport) }) ∧
    ({ mkBaseForm { baseFields := [("x", textField 0)] } {} with
        errorsCache := some ([] : ErrorReport) }).cleanedData = none ∧
    isPopulated [] = false ∧
    isValidRun { mkBaseForm { baseFields := [("x", textField 0)] } {} with
        errorsCache := some ([] : ErrorReport) } =
      .ok (false,
        { mkBaseForm { baseFields := [("x", textField 0)] } {} with
          errorsCache := some ([] : ErrorReport) }) :=
  unbound_form_invalid_unpopulated { baseFields := [("x", textField 0)] } {}
    rfl rfl

/-- Claim C4: for every bound schema instance, after `fullClean` has run,
`cleanedData` is present if and only if the Error Report is not populated:
populated report means `cleanedData` was deleted, empty report means it
exists. -/
theorem cleanedData_iff_no_errors (f g : Form)
    (hb : f.isBound = true) (h : fullClean f = .ok g) :
    g.cleanedData.isSome = !isPopulated (g.errorsCache.getD []) := by
  simp only [fullClean] at h
  rw [if_pos (by exact hb)] at h
  split at h
  · cases h
    split
    · rw [changedDataRun_snd_cleanedData, changedDataRun_snd_errorsCache]
      rfl
    · rfl
  · split at h
    · exact absurd h (by simp)
    · split at h
      · exact absurd h (by simp)
      · cases h
        simp only [Option.getD_some]
        cases hp : isPopulated _ <;> simp [hp]

/-- Witness for C4: `fullClean` on `demoForm` succeeds with an empty report
and present `cleanedData`. -/
theorem cleanedData_iff_no_errors_witness :
    demoFormAfter.cleanedData.isSome =
      !isPopulated (demoFormAfter.errorsCache.getD []) :=
  cleanedData_iff_no_errors demoForm demoFormAfter rfl rfl

/-- Claim C5: for every bound instance whose schema declares
`emptyPermitted` true and whose Change Detector reports zero changed
fields, `fullClean` stops before any per-field cleaning: no field's `clean`
is invoked (the ghost `cleanLog` is unchanged), `isValid()` returns true,
and `cleanedData` is the empty map — even if individual fields' `clean`
would have failed on the supplied data (no hypothesis constrains the
fields' `clean`). -/
theorem emptyPermitted_short_circuit (f : Form)
    (hb : f.isBound = true) (hep : f.emptyPermitted = true)
    (hch : (changedDataRun f).1 = []) (hec : f.errorsCache = none) :
    isValidRun f = .ok (true, shortCircuitState f) ∧
    (shortCircuitState f).cleanedData = some [] ∧
    (shortCircuitState f).cleanLog = f.cleanLog := by
  have hch2 : (changedDataRun (boundInit f)).1 = [] :=
    (changedDataRun_fst_boundInit f).trans hch
  have hcond : ((boundInit f).emptyPermitted &&
      List.isEmpty (changedDataRun (boundInit f)).1) = true := by
    have h1 : (boundInit f).emptyPermitted = true := hep
    rw [h1, hch2]
    rfl
  have hfc : fullClean f = .ok (shortCircuitState f) := by
    rw [fullClean, if_pos (show (errorsInit f).isBound = true from hb),
      if_pos hcond, shortCircuitState,
      if_pos (show (boundInit f).emptyPermitted = true from hep)]
  have he : (shortCircuitState f).errorsCache = some [] := by
    rw [shortCircuitState, changedDataRun_snd_errorsCache]
    rfl
  refine ⟨?_, ?_, ?_⟩
  · rw [isValidRun, if_pos (by exact hb), errorsRun, hec, hfc]
    simp [he, isPopulated]
  · rw [shortCircuitState, changedDataRun_snd_cleanedData]
    rfl
  · rw [shortCircuitState, changedDataRun_snd_cleanLog]
    rfl

/-- Witness for C5: `demoEmptyForm` is bound, permits emptiness, has no
changed fields, and its single field's `clean` always fails — yet it is
valid with empty `cleanedData` and an untouched clean log. -/
theorem emptyPermitted_short_circuit_witness :
    isValidRun demoEmptyForm =
      .ok (true, shortCircuitState demoEmptyForm) ∧
    (shortCircuitState demoEmptyForm).cleanedData = some [] ∧
    (shortCircuitState demoEmptyForm).cleanLog = demoEmptyForm.cleanLog :=
  emptyPermitted_short_circuit demoEmptyForm rfl rfl rfl rfl

/-- Claim C7: schema composition preserves declaration order with in-place
override.  First conjunct: assigning to a name already present anywhere in
the accumulated map keeps every key in its original position while binding
the name to the later capability instance.  Second conjunct: composing
parent P with fields `a`, `b` and inline fields `b` (redeclared), `c`
(inline fields ordered by their creation counter) yields the order
`a, b(new), c`. -/
theorem form_composition_order (fa fb fb2 fc : Field)
    (hlt : fb2.creationCounter < fc.creationCounter) :
    (∀ (m : List (String × Field)) (k : String) (v : Field),
      objHasOwn m k = true →
        (objSet m k v).map Prod.fst = m.map Prod.fst ∧
        objGet (objSet m k v) k = some v) ∧
    formBaseFields [[("a", fa), ("b", fb)]] [("b", fb2), ("c", fc)] =
      [("a", fa), ("b", fb2), ("c", fc)] := by
  refine ⟨fun m k v h =>
    ⟨map_fst_objSet_of_hasOwn m k v h, objGet_objSet_self m k v⟩, ?_⟩
  have hs : sortFields [("b", fb2), ("c", fc)] = [("b", fb2), ("c", fc)] := by
    simp [sortFields, insertByCounter, hlt]
  rw [formBaseFields, List.foldr_cons, List.foldr_nil, hs]
  rfl

/-- Witness for C7: concrete fields with creation counters 0-3. -/
theorem form_composition_order_witness :
    formBaseFields [[("a", lenientField 0), ("b", lenientField 1)]]
      [("b", lenientField 2), ("c", lenientField 3)] =
    [("a", lenientField 0), ("b", lenientField 2), ("c", lenientField 3)] :=
  (form_composition_order (lenientField 0) (lenientField 1) (lenientField 2)
    (lenientField 3) (by decide)).2

/-- Claim C8: `changedData()` returns, in field declaration order, exactly
the names of the fields whose `hasChanged` predicate answers true on the
submitted raw value and the initial value — the latter taken from the
per-instance initial map falling back to the field's own initial, except
that a `showHiddenInitial` field reads its initial from the submitted
data/files under the `initial-`-prefixed name via its hidden widget
(`specChangedInitial` / `specSubmittedValue` spell the spec's wording). -/
theorem changedData_matches_spec (f : Form) (h : f.changedDataCache = none) :
    (changedDataRun f).1 =
      (f.fields.filter (fun p =>
          p.2.hasChanged (specChangedInitial f p.1 p.2)
            (specSubmittedValue f p.1 p.2))).map Prod.fst := by
  have h1 : (changedDataRun f).1 = computeChangedData f := by
    simp only [changedDataRun, h]
  rw [h1]
  show f.fields.foldl (fun acc p =>
      if p.2.hasChanged (specChangedInitial f p.1 p.2)
          (specSubmittedValue f p.1 p.2) then acc ++ [p.1] else acc) [] = _
  rw [foldl_collect (fun p => p.2.hasChanged (specChangedInitial f p.1 p.2)
    (specSubmittedValue f p.1 p.2)) Prod.fst f.fields []]
  simp

/-- Witness for C8: `demoForm` has a fresh change-detection cache. -/
theorem changedData_matches_spec_witness :
    (changedDataRun demoForm).1 =
      (demoForm.fields.filter (fun p =>
          p.2.hasChanged (specChangedInitial demoForm p.1 p.2)
            (specSubmittedValue demoForm p.1 p.2))).map Prod.fst :=
  changedData_matches_spec demoForm rfl

/-- Claim C9: `fullClean` runs at most once per instance — a second
`errors()` read returns the stored report and the identical instance state
(so the ghost `cleanLog` gains no entries: no field `clean` re-runs) — and
`changedData()` is likewise computed at most once and stable. -/
theorem memoized_accessors (f : Form) (e : ErrorReport) (g : Form)
    (he : errorsRun f = .ok (e, g)) (f2 : Form) (l : List String) (g2 : Form)
    (hc : changedDataRun f2 = (l, g2)) :
    errorsRun g = .ok (e, g) ∧ changedDataRun g2 = (l, g2) := by
  constructor
  · cases hcache : f.errorsCache with
    | some e0 =>
      simp only [errorsRun, hcache] at he
      injection he with h1
      injection h1 with h2 h3
      subst h2
      subst h3
      simp only [errorsRun, hcache]
    | none =>
      simp only [errorsRun, hcache] at he
      cases hfc : fullClean f with
      | ok g0 =>
        rw [hfc] at he
        injection he with h1
        injection h1 with h2 h3
        subst h2
        subst h3
        have hs := fullClean_errorsCache f g0 hfc
        cases hg : g0.errorsCache with
        | some e1 => simp [errorsRun, hg]
        | none => rw [hg] at hs; simp at hs
      | error err => rw [hfc] at he; cases he
  · cases hcc : f2.changedDataCache with
    | some l0 =>
      simp only [changedDataRun, hcc] at hc
      injection hc with h2 h3
      subst h2
      subst h3
      simp only [changedDataRun, hcc]
    | none =>
      simp only [changedDataRun, hcc] at hc
      injection hc with h2 h3
      subst h2
      subst h3
      simp [changedDataRun]

/-- Witness for C9: re-reading `errors()` on the already-cleaned
`demoFormAfter` and `changedData()` on the already-detected
`demoFormChanged` reproduces the stored results and states. -/
theorem memoized_accessors_witness :
    errorsRun demoFormAfter = .ok ([], demoFormAfter) ∧
    changedDataRun demoFormChanged = (["x"], demoFormChanged) :=
  memoized_accessors demoForm [] demoFormAfter rfl demoForm ["x"]
    demoFormChanged rfl

/-- Claim C6: for a field that cleans successfully, when the instance has a
method named `clean_<name>` that hook alone is invoked (the camel-cased
`clean<Name>` variant is skipped — the ghost `hookCalls` log names exactly
the invoked hook); when only the camel-cased variant exists, it is invoked
instead; whichever hook runs, its return value `r` replaces the field's
entry in `cleanedData` unconditionally — including `r = undefined`. -/
theorem custom_hook_dispatch (f : Form) (st : CleanState) (name : String)
    (field : Field) (v0 : JSValue)
    (hclean : field.clean
        (field.widget.valueFromData f.data f.files (addPrefix f name))
        (if field.isFileField then getDefault f.initial name field.initial
         else JSValue.undef) = .ok v0) :
    (∀ (hook : FieldHook) (r : JSValue),
      objGet f.methodHooks ("clean_" ++ name) = some hook →
      hook (objSet st.cleanedData name v0) = .ok r →
      cleanOneField f st name field = .ok
        { st with
          calls := st.calls ++ [name]
          hookCalls := st.hookCalls ++ ["clean_" ++ name]
          cleanedData := objSet (objSet st.cleanedData name v0) name r }) ∧
    (∀ (hook : FieldHook) (r : JSValue),
      objGet f.methodHooks ("clean_" ++ name) = none →
      objGet f.methodHooks (camelName name) = some hook →
      hook (objSet st.cleanedData name v0) = .ok r →
      cleanOneField f st name field = .ok
        { st with
          calls := st.calls ++ [name]
          hookCalls := st.hookCalls ++ [camelName name]
          cleanedData := objSet (objSet st.cleanedData name v0) name r }) := by
  constructor
  · intro hook r h1 h2
    simp only [cleanOneField, hclean, applyHook, h1, h2]
  · intro hook r h1 h2 h3
    simp only [cleanOneField, hclean, applyHook, h1, h2, h3]

/-- Witness for C6: `hookForm` declares both a `clean_x` hook (returning
`undefined`) and a `cleanX` hook; only `clean_x` runs, and its `undefined`
return value replaces the already-clean value of `x`. -/
theorem custom_hook_dispatch_witness :
    cleanOneField hookForm
      { cleanedData := [], errors := [], calls := [], hookCalls := [] }
      "x" (lenientField 0) = .ok
      { cleanedData := [("x", JSValue.undef)]
        errors := []
        calls := ["x"]
        hookCalls := ["clean_x"] } :=
  (custom_hook_dispatch hookForm
      { cleanedData := [], errors := [], calls := [], hookCalls := [] }
      "x" (lenientField 0) (JSValue.str "1") rfl).1
    (fun _ => Except.ok JSValue.undef) JSValue.undef rfl rfl

/-- Claim C3: when the form-wide `clean()` hook raises a `ValidationError`
during `fullClean` of a bound instance (here: one that is not
`emptyPermitted`-short-circuited and whose per-field cleaning succeeded
with state `st`), its messages are recorded in the Error Report under
exactly the reserved key `"__all__"` (`NON_FIELD_ERRORS`), and `cleanedData`
is absent when `fullClean` finishes; a non-`ValidationError` raised by the
hook propagates uncaught. -/
theorem formwide_clean_hook_errors (f : Form) (h : FormCleanHook)
    (st : CleanState)
    (hb : f.isBound = true) (hep : f.emptyPermitted = false)
    (hhook : f.cleanHook = some h)
    (hfc : cleanFields f = .ok st) :
    (∀ m ms, h st.cleanedData = .error (.validation m ms) →
      fullClean f = .ok
        { f with
          errorsCache := some (objSet st.errors NON_FIELD_ERRORS (m :: ms))
          cleanedData := none
          cleanLog := f.cleanLog ++ st.calls } ∧
      objGet (objSet st.errors NON_FIELD_ERRORS (m :: ms)) NON_FIELD_ERRORS =
        some (m :: ms)) ∧
    (∀ t, h st.cleanedData = .error (.other t) →
      fullClean f = .error (.other t)) := by
  have hb2 : (errorsInit f).isBound = true := hb
  have h1 : (boundInit f).emptyPermitted = false := hep
  have hfc2 : cleanFields (boundInit f) = .ok st :=
    (cleanFields_boundInit f).trans hfc
  constructor
  · intro m ms hv
    refine ⟨?_, objGet_objSet_self st.errors NON_FIELD_ERRORS (m :: ms)⟩
    simp only [fullClean, hb2, h1, eq_self_iff_true, if_true,
      Bool.false_and, Bool.false_eq_true, if_false, hfc2,
      cleanForm, boundInit_cleanHook, hhook, hv, isPopulated_objSet,
      boundInit_isBound, boundInit_data, boundInit_files,
      boundInit_namePrefix, boundInit_initial, boundInit_emptyPermitted,
      boundInit_fields, boundInit_methodHooks, boundInit_changedDataCache,
      boundInit_cleanLog, hep]
  · intro t ho
    simp only [fullClean, hb2, h1, eq_self_iff_true, if_true,
      Bool.false_and, Bool.false_eq_true, if_false, hfc2,
      cleanForm, boundInit_cleanHook, hhook, ho]

/-- Witness for C3: `formHookFail` has a lenient field `x` and a failing
form-wide hook; the hook's message ends up under `"__all__"` and
`cleanedData` is gone. -/
theorem formwide_clean_hook_errors_witness :
    fullClean formHookFail = .ok
      { formHookFail with
        errorsCache := some [(NON_FIELD_ERRORS, ["Cross-field mismatch."])]
        cleanedData := none
        cleanLog := ["x"] } ∧
    objGet [(NON_FIELD_ERRORS, ["Cross-field mismatch."])] NON_FIELD_ERRORS =
      some ["Cross-field mismatch."] :=
  (formwide_clean_hook_errors formHookFail
      (fun _ => Except.error (.validation "Cross-field mismatch." []))
      { cleanedData := [("x", JSValue.str "1")], errors := []
        calls := ["x"], hookCalls := [] }
      rfl rfl rfl rfl).1 "Cross-field mismatch." [] rfl

/-- Claim C1: during per-field cleaning, for a field whose `clean` raises a
`ValidationError`, that field's name keys the Error Report with the
non-empty message list, `cleanedData` has no entry for that field, and every
other field's cleaning still runs to completion (the ghost `calls` log
covers every declared field); a raised condition that is not a
`ValidationError` makes `_cleanFields` propagate an uncaught
non-`ValidationError`, recording nothing. -/
theorem field_error_isolated (f : Form)
    (hnd : (f.fields.map Prod.fst).Nodup)
    (name : String) (field : Field)
    (hmem : (name, field) ∈ f.fields) :
    (∀ m ms st, field.clean
        (field.widget.valueFromData f.data f.files (addPrefix f name))
        (if field.isFileField then getDefault f.initial name field.initial
         else JSValue.undef) = .error (.validation m ms) →
      cleanFields f = .ok st →
      objGet st.errors name = some (m :: ms) ∧
      objHasOwn st.cleanedData name = false ∧
      st.calls = f.fields.map Prod.fst) ∧
    (∀ t, field.clean
        (field.widget.valueFromData f.data f.files (addPrefix f name))
        (if field.isFileField then getDefault f.initial name field.initial
         else JSValue.undef) = .error (.other t) →
      isOtherError (cleanFields f) = true) := by
  obtain ⟨l1, l2, hsplit⟩ := List.append_of_mem hmem
  have hnd2 : (l1.map Prod.fst ++ name :: l2.map Prod.fst).Nodup := by
    rw [hsplit] at hnd
    simpa using hnd
  obtain ⟨hndA, hndB, hdisj⟩ := List.nodup_append.mp hnd2
  have hn1 : name ∉ l1.map Prod.fst :=
    fun hx => hdisj hx (List.mem_cons_self _ _)
  have hn2 : name ∉ l2.map Prod.fst := (List.nodup_cons.mp hndB).1
  constructor
  · intro m ms st hv hok
    rw [cleanFields, hsplit, cleanFieldsList_append] at hok
    cases h1 : cleanFieldsList f
        { cleanedData := [], errors := [], calls := [], hookCalls := [] }
        l1 with
    | error e => rw [h1] at hok; cases hok
    | ok st1 =>
      simp only [h1] at hok
      simp only [cleanFieldsList,
        cleanOneField_validation f st1 name field m ms hv] at hok
      have hfr1 := cleanFieldsList_frame f
        { cleanedData := [], errors := [], calls := [], hookCalls := [] }
        l1 st1 h1 name hn1
      have hH1 : objHasOwn st1.cleanedData name = false := by
        simpa [objHasOwn] using hfr1.2
      have hself := recordFieldError_self
        { st1 with calls := st1.calls ++ [name] } name (m :: ms)
      have hfr2 := cleanFieldsList_frame f _ l2 st hok name hn2
      refine ⟨?_, ?_, ?_⟩
      · rw [hfr2.1]
        exact hself.1
      · rw [hfr2.2]
        exact hself.2 hH1
      · have hc2 := cleanFieldsList_calls f _ l2 st hok
        have hc1 := cleanFieldsList_calls f
          { cleanedData := [], errors := [], calls := [], hookCalls := [] }
          l1 st1 h1
        rw [hc2, recordFieldError_calls]
        simp only [List.nil_append] at hc1
        rw [show ({ st1 with calls := st1.calls ++ [name] }
            : CleanState).calls = st1.calls ++ [name] from rfl, hc1, hsplit]
        simp
  · intro t hv
    rw [cleanFields, hsplit, cleanFieldsList_append]
    cases h1 : cleanFieldsList f
        { cleanedData := [], errors := [], calls := [], hookCalls := [] }
        l1 with
    | error e =>
      obtain ⟨t0, ht⟩ := cleanFieldsList_error_other f
        { cleanedData := [], errors := [], calls := [], hookCalls := [] }
        l1 e h1
      rw [ht]
      rfl
    | ok st1 =>
      simp only [cleanFieldsList, cleanOneField_other f st1 name field t hv]
      rfl

/-- Witness for C1: in `twoFieldForm`, the required field `bad` fails while
the lenient field `ok` still cleans; the report keys `bad`, `cleanedData`
lacks `bad`, and both fields were processed. -/
theorem field_error_isolated_witness :
    objGet ({ cleanedData := [("ok", JSValue.str "v")]
              errors := [("bad", ["This field is required."])]
              calls := ["bad", "ok"], hookCalls := [] }
              : CleanState).errors "bad" = some ["This field is required."] ∧
    objHasOwn ({ cleanedData := [("ok", JSValue.str "v")]
                 errors := [("bad", ["This field is required."])]
                 calls := ["bad", "ok"], hookCalls := [] }
                 : CleanState).cleanedData "bad" = false ∧
    ({ cleanedData := [("ok", JSValue.str "v")]
       errors := [("bad", ["This field is required."])]
       calls := ["bad", "ok"], hookCalls := [] }
       : CleanState).calls = twoFieldForm.fields.map Prod.fst :=
  (field_error_isolated twoFieldForm (by decide) "bad" (textField 0)
      (List.mem_cons_self ("bad", textField 0)
        [("ok", lenientField 1)])).1
    "This field is required." []
    { cleanedData := [("ok", JSValue.str "v")]
      errors := [("bad", ["This field is required."])]
      calls := ["bad", "ok"], hookCalls := [] }
    rfl rfl

end Newforms
